import Mathlib

/-!
Shallow embedding of the street-photo-tool session manager (`src/server.js`,
current revision) together with the path helpers it uses (`path.normalize`,
`path.resolve`, `path.basename`, `path.extname` in POSIX form) and the
finalize pipeline (`cropImageToSquare`, `/api/done`).  The external
collaborators (sharp image pipeline, file reads, the Shopify upload call) are
passed in as function parameters / flags so that every code path of the
session manager itself is modelled faithfully.
-/

namespace StreetPhoto

/-! ## Path model (POSIX-style, mirroring Node's `path` module) -/

/-- Split a character list on `'/'` separators, keeping empty segments
(the analogue of `String.splitOn "/"`). -/
def splitSegs : List Char → List (List Char)
  | [] => [[]]
  | c :: cs =>
    if c == '/' then [] :: splitSegs cs
    else
      match splitSegs cs with
      | [] => [[c]]
      | seg :: rest => (c :: seg) :: rest

/-- Does the path string start with `'/'` (an absolute POSIX path)? -/
def isAbsolutePath (p : String) : Bool :=
  match p.toList with
  | '/' :: _ => true
  | _ => false

/-- Join path segments with `"/"`. -/
def joinSegs : List String → String
  | [] => ""
  | s :: rest =>
    match rest with
    | [] => s
    | _ => s ++ "/" ++ joinSegs rest

/-- The segments of a path that are meaningful for normalization:
empty segments and `"."` segments are dropped. -/
def segsOf (p : String) : List String :=
  ((splitSegs p.toList).map (fun cs => String.mk cs)).filter
    (fun s => s != "" && s != ".")

/-- Process path segments left to right keeping a (reversed) stack,
resolving `".."` segments the way Node's `path.posix.normalize` does:
`".."` pops a previous real segment; at the root of an absolute path it is
dropped; at the front of a relative path it is kept. -/
def normStack (abs : Bool) : List String → List String → List String
  | stack, [] => stack.reverse
  | stack, seg :: rest =>
    if seg == ".." then
      match stack with
      | [] => normStack abs (if abs then [] else [".."]) rest
      | top :: stack' =>
        if top == ".." then normStack abs (seg :: stack) rest
        else normStack abs stack' rest
    else normStack abs (seg :: stack) rest

/-- `path.normalize` (POSIX): collapse separators, `"."` and `".."`. -/
def pathNormalize (p : String) : String :=
  let abs := isAbsolutePath p
  let core := normStack abs [] (segsOf p)
  if abs then "/" ++ joinSegs core
  else if core.isEmpty then "." else joinSegs core

/-- `path.resolve(root, rel)` for an absolute `root`: an absolute `rel`
wins outright, otherwise `rel` is joined onto `root`; the result is
normalized either way. -/
def pathResolve (root rel : String) : String :=
  if isAbsolutePath rel then pathNormalize rel
  else pathNormalize (root ++ "/" ++ rel)

/-- `path.basename`: the last nonempty `/`-separated segment. -/
def pathBasename (p : String) : String :=
  (((splitSegs p.toList).map (fun cs => String.mk cs)).filter
    (fun s => s != "")).getLast?.getD ""

/-- The suffix of a character list starting at its last `'.'`, if any. -/
def afterLastDot? : List Char → Option (List Char)
  | [] => none
  | c :: cs =>
    match afterLastDot? cs with
    | some suf => some suf
    | none => if c == '.' then some (c :: cs) else none

/-- `path.extname`: the extension of the basename, empty for dot-files. -/
def pathExtname (p : String) : String :=
  let cs := (pathBasename p).toList
  match afterLastDot? cs with
  | none => ""
  | some suf => if suf.length == cs.length then "" else String.mk suf

/-- `path.basename(p, ext)`: the basename with a trailing `ext` stripped. -/
def basenameDropExt (p ext : String) : String :=
  let b := pathBasename p
  if ext != "" && b != ext && ext.toList.reverse.isPrefixOf b.toList.reverse then
    String.mk (b.toList.take (b.toList.length - ext.toList.length))
  else b

/-- ASCII lower-casing of a string (the uses here are file extensions). -/
def strToLower (s : String) : String :=
  String.mk (s.toList.map Char.toLower)

/-- `String.prototype.startsWith`. -/
def strStartsWith (s pre : String) : Bool :=
  pre.toList.isPrefixOf s.toList

/-! ## Data model (`server.js`, module state and request payloads) -/

/-- `currentProduct` record: `{ id, title, sku, created_at }`. -/
structure Product where
  id : String
  title : String
  sku : Option String
  created_at : Option String
deriving Repr, DecidableEq

/-- The session manager's mutable state: the active selection and the
ordered queue of absolute file paths. -/
structure ServerState where
  currentProduct : Option Product
  queuedFiles : List String
deriving Repr, DecidableEq

/-- JavaScript `v || d` for string-valued fields: `undefined` and `""` are
falsy and replaced by the default. -/
def jsOr (v : Option String) (d : String) : String :=
  match v with
  | some s => if s = "" then d else s
  | none => d

/-- JavaScript `v || null` for string-valued fields. -/
def jsOrNull (v : Option String) : Option String :=
  match v with
  | some s => if s = "" then none else some s
  | none => none

/-- Result of `/api/select-product`. -/
inductive SelectResult where
  | ok
  | badRequest (msg : String)
deriving Repr, DecidableEq

/-- `/api/select-product`: reject a missing/empty id, otherwise replace the
selection unconditionally and reset the queue to empty. -/
def selectProduct (id title sku created_at : Option String)
    (st : ServerState) : SelectResult × ServerState :=
  match id with
  | none => (.badRequest "Missing product id", st)
  | some i =>
    if i = "" then (.badRequest "Missing product id", st)
    else
      (.ok,
       { currentProduct := some
           { id := i, title := jsOr title "", sku := jsOrNull sku,
             created_at := jsOrNull created_at },
         queuedFiles := [] })

/-- Extensions the watcher accepts. -/
def allowedExts : List String := [".jpg", ".jpeg", ".png", ".heic"]

/-- The chokidar `add` handler: filter by extension (lower-cased), then
append to the queue iff a product is selected.  No de-duplication. -/
def onFileAppeared (filePath : String) (st : ServerState) : ServerState :=
  if !(allowedExts.contains (strToLower (pathExtname filePath))) then st
  else
    match st.currentProduct with
    | some _ => { st with queuedFiles := st.queuedFiles ++ [filePath] }
    | none => st

/-- Result of `/api/remove-photo`. -/
inductive RemoveResult where
  | ok (queuedCount : Nat)
  | badRequest (msg : String)
deriving Repr, DecidableEq

/-- Outcome of `/api/remove-photo`: HTTP result, new queue, new set of
files present on disk. -/
structure RemoveOutcome where
  result : RemoveResult
  queuedFiles : List String
  fsFiles : List String
deriving Repr, DecidableEq

/-- `/api/remove-photo` (current revision): resolve `relPath` against the
watched root, drop every queue entry with the same normalized path, unlink
the resolved file if it exists, and answer `ok` with the new queue length.
There is no containment check on the resolved path and no distinct
not-found answer. -/
def removePhoto (watchDir : String) (relPath : Option String)
    (queue fsFiles : List String) : RemoveOutcome :=
  match relPath with
  | none => ⟨.badRequest "Missing relPath", queue, fsFiles⟩
  | some rel =>
    if rel = "" then ⟨.badRequest "Missing relPath", queue, fsFiles⟩
    else
      let absPath := pathResolve watchDir rel
      let queue' := queue.filter
        (fun p => pathNormalize p != pathNormalize absPath)
      let fs' := fsFiles.filter (fun f => f != absPath)
      ⟨.ok queue'.length, queue', fs'⟩

/-- Result of `/api/reorder-photos`. -/
inductive ReorderResult where
  | ok
  | badRequest (msg : String)
deriving Repr, DecidableEq

/-- The normalized absolute path a reorder entry refers to:
`normalize(resolve(WATCH_DIR, rel))`. -/
def resolveNorm (watchDir rel : String) : String :=
  pathNormalize (pathResolve watchDir rel)

/-- The `newQueued` list of `/api/reorder-photos`: for each supplied
relative path, the first queue entry with the same normalized absolute
path, if any. -/
def reorderMatched (watchDir : String) (order queue : List String) :
    List String :=
  order.filterMap
    (fun rel => queue.find? (fun p => pathNormalize p == resolveNorm watchDir rel))

/-- `/api/reorder-photos`: matched entries first in the supplied order;
if any queue entries were left out they are appended by filtering the
queue against `newQueued` membership; zero matches is a 400. -/
def reorderPhotos (watchDir : String) (order : Option (List String))
    (queue : List String) : ReorderResult × List String :=
  match order with
  | none => (.badRequest "Missing order array", queue)
  | some ord =>
    let newQueued := reorderMatched watchDir ord queue
    if newQueued.isEmpty then
      (.badRequest "Reorder did not match current queue", queue)
    else if newQueued.length != queue.length then
      (.ok, newQueued ++ queue.filter (fun p => !(newQueued.contains p)))
    else
      (.ok, newQueued)

/-! ## Finalize pipeline (`cropImageToSquare` and `/api/done`)

The sharp pipeline and `fs.promises.readFile` are external collaborators;
they are passed in as functions returning `Option` (`none` = the promise
rejected).  The Shopify upload is represented by a flag saying whether
`uploadImagesToProduct` throws; the argument list it receives is recorded
in the outcome. -/

/-- An image prepared for upload: `{ filename, buffer }`. -/
structure Image where
  filename : String
  buffer : List Nat
deriving Repr, DecidableEq

/-- `cropImageToSquare`: on success of the sharp pipeline the result is the
re-encoded buffer under `<basename>-square.jpg`; if the pipeline throws,
fall back to the raw original bytes under the original basename; if that
read also throws, the rejection propagates. -/
def cropImageToSquare (normalizeFn readFileFn : String → Option (List Nat))
    (filePath : String) : Option Image :=
  let ext := pathExtname filePath
  let baseName := basenameDropExt filePath ext
  match normalizeFn filePath with
  | some buf => some { filename := baseName ++ "-square.jpg", buffer := buf }
  | none =>
    match readFileFn filePath with
    | some buf => some { filename := pathBasename filePath, buffer := buf }
    | none => none

/-- `Promise.all(queuedFiles.map(cropImageToSquare))`: all results in the
original order, or a rejection if any single crop-with-fallback rejects. -/
def cropAll (normalizeFn readFileFn : String → Option (List Nat)) :
    List String → Option (List Image)
  | [] => some []
  | f :: fs =>
    match cropImageToSquare normalizeFn readFileFn f with
    | none => none
    | some img =>
      match cropAll normalizeFn readFileFn fs with
      | none => none
      | some imgs => some (img :: imgs)

/-- HTTP-level result of `/api/done`. -/
inductive FinalizeResult where
  | noProduct
  | noFiles
  | failed
  | ok
deriving Repr, DecidableEq

/-- Outcome of `/api/done`: result, new state, files remaining on disk,
the `uploadImagesToProduct` invocation (if it happened) and the list of
files actually unlinked. -/
structure FinalizeOutcome where
  result : FinalizeResult
  state : ServerState
  fsFiles : List String
  uploadCall : Option (String × List Image)
  deleted : List String
deriving Repr, DecidableEq

/-- `/api/done`: preconditions, crop all queued files, upload, delete the
snapshot of queued files, clear selection and queue.  A rejected crop or a
throwing upload lands in the `catch` block: 500, nothing deleted, state
untouched. -/
def finalize (normalizeFn readFileFn : String → Option (List Nat))
    (uploadThrows : Bool) (st : ServerState) (fsFiles : List String) :
    FinalizeOutcome :=
  match st.currentProduct with
  | none => ⟨.noProduct, st, fsFiles, none, []⟩
  | some prod =>
    if st.queuedFiles.isEmpty then ⟨.noFiles, st, fsFiles, none, []⟩
    else
      match cropAll normalizeFn readFileFn st.queuedFiles with
      | none => ⟨.failed, st, fsFiles, none, []⟩
      | some images =>
        if uploadThrows then
          ⟨.failed, st, fsFiles, some (prod.id, images), []⟩
        else
          ⟨.ok, ⟨none, []⟩,
           fsFiles.filter (fun f => !(st.queuedFiles.contains f)),
           some (prod.id, images),
           st.queuedFiles.filter (fun f => fsFiles.contains f)⟩

/-! ## Helper lemmas -/

theorem cropAll_length (normalizeFn readFileFn : String → Option (List Nat)) :
    ∀ {fs : List String} {imgs : List Image},
      cropAll normalizeFn readFileFn fs = some imgs → imgs.length = fs.length := by
  intro fs
  induction fs with
  | nil =>
    intro imgs h
    simp only [cropAll, Option.some.injEq] at h
    subst h
    rfl
  | cons f fs ih =>
    intro imgs h
    unfold cropAll at h
    cases hc : cropImageToSquare normalizeFn readFileFn f with
    | none => rw [hc] at h; exact absurd h (by simp)
    | some img =>
      rw [hc] at h
      cases hr : cropAll normalizeFn readFileFn fs with
      | none => rw [hr] at h; exact absurd h (by simp)
      | some imgs' =>
        rw [hr] at h
        simp only [Option.some.injEq] at h
        subst h
        simp [ih hr]

theorem cropAll_get (normalizeFn readFileFn : String → Option (List Nat)) :
    ∀ {fs : List String} {imgs : List Image},
      cropAll normalizeFn readFileFn fs = some imgs →
      ∀ i (hi : i < fs.length) (hi' : i < imgs.length),
        cropImageToSquare normalizeFn readFileFn (fs.get ⟨i, hi⟩) =
          some (imgs.get ⟨i, hi'⟩) := by
  intro fs
  induction fs with
  | nil =>
    intro imgs _ i hi _
    exact absurd hi (by simp)
  | cons f fs ih =>
    intro imgs h i hi hi'
    unfold cropAll at h
    cases hc : cropImageToSquare normalizeFn readFileFn f with
    | none => rw [hc] at h; exact absurd h (by simp)
    | some img =>
      rw [hc] at h
      cases hr : cropAll normalizeFn readFileFn fs with
      | none => rw [hr] at h; exact absurd h (by simp)
      | some imgs' =>
        rw [hr] at h
        simp only [Option.some.injEq] at h
        subst h
        cases i with
        | zero => simpa using hc
        | succ n =>
          have hn : n < fs.length := Nat.lt_of_succ_lt_succ hi
          have hn' : n < imgs'.length := Nat.lt_of_succ_lt_succ hi'
          simpa using ih hr n hn hn'

theorem queue_isEmpty_false {st : ServerState} (hq : st.queuedFiles ≠ []) :
    st.queuedFiles.isEmpty = false := by
  cases hql : st.queuedFiles with
  | nil => exact absurd hql hq
  | cons a l => rfl

/-! ## Claim theorems -/

/-- C1: with an active selection and a non-empty queue, if every crop
succeeds but `uploadImagesToProduct` throws, `/api/done` answers the
upstream-failure error and the selection, the queue, the files on disk
and the set of deleted files are exactly as before the call. -/
theorem finalize_upload_failure_preserves_state
    (normalizeFn readFileFn : String → Option (List Nat))
    (st : ServerState) (fsFiles : List String)
    (prod : Product) (imgs : List Image)
    (hsel : st.currentProduct = some prod)
    (hq : st.queuedFiles ≠ [])
    (hcrop : cropAll normalizeFn readFileFn st.queuedFiles = some imgs) :
    (finalize normalizeFn readFileFn true st fsFiles).result = .failed ∧
    (finalize normalizeFn readFileFn true st fsFiles).state = st ∧
    (finalize normalizeFn readFileFn true st fsFiles).fsFiles = fsFiles ∧
    (finalize normalizeFn readFileFn true st fsFiles).deleted = [] := by
  have hne := queue_isEmpty_false hq
  simp [finalize, hsel, hne, hcrop]

/-- Witness for the upload-failure claim at a concrete state. -/
theorem finalize_upload_failure_preserves_state_witness :
    (⟨some ⟨"42", "Red Hat", none, none⟩, ["/srv/watch/a.jpg"]⟩ :
        ServerState).currentProduct = some ⟨"42", "Red Hat", none, none⟩ ∧
    (⟨some ⟨"42", "Red Hat", none, none⟩, ["/srv/watch/a.jpg"]⟩ :
        ServerState).queuedFiles ≠ [] ∧
    cropAll (fun _ => some [7]) (fun _ => none) ["/srv/watch/a.jpg"] =
      some [⟨"a-square.jpg", [7]⟩] ∧
    ((finalize (fun _ => some [7]) (fun _ => none) true
        ⟨some ⟨"42", "Red Hat", none, none⟩, ["/srv/watch/a.jpg"]⟩
        ["/srv/watch/a.jpg"]).result = .failed ∧
     (finalize (fun _ => some [7]) (fun _ => none) true
        ⟨some ⟨"42", "Red Hat", none, none⟩, ["/srv/watch/a.jpg"]⟩
        ["/srv/watch/a.jpg"]).state =
       ⟨some ⟨"42", "Red Hat", none, none⟩, ["/srv/watch/a.jpg"]⟩ ∧
     (finalize (fun _ => some [7]) (fun _ => none) true
        ⟨some ⟨"42", "Red Hat", none, none⟩, ["/srv/watch/a.jpg"]⟩
        ["/srv/watch/a.jpg"]).fsFiles = ["/srv/watch/a.jpg"] ∧
     (finalize (fun _ => some [7]) (fun _ => none) true
        ⟨some ⟨"42", "Red Hat", none, none⟩, ["/srv/watch/a.jpg"]⟩
        ["/srv/watch/a.jpg"]).deleted = []) :=
  ⟨rfl, by decide, by decide,
   finalize_upload_failure_preserves_state (fun _ => some [7]) (fun _ => none)
     ⟨some ⟨"42", "Red Hat", none, none⟩, ["/srv/watch/a.jpg"]⟩
     ["/srv/watch/a.jpg"] ⟨"42", "Red Hat", none, none⟩
     [⟨"a-square.jpg", [7]⟩] rfl (by decide) (by decide)⟩

/-- C2: a successful finalize invokes `uploadImagesToProduct` with the
selected item's id and exactly one image per queued file, the i-th image
being the normalization of the i-th queued file (original queue order);
afterwards the selection is none and the queue is empty. -/
theorem finalize_success_uploads_in_order
    (normalizeFn readFileFn : String → Option (List Nat))
    (st : ServerState) (fsFiles : List String)
    (prod : Product) (imgs : List Image)
    (hsel : st.currentProduct = some prod)
    (hq : st.queuedFiles ≠ [])
    (hcrop : cropAll normalizeFn readFileFn st.queuedFiles = some imgs) :
    (finalize normalizeFn readFileFn false st fsFiles).result = .ok ∧
    (finalize normalizeFn readFileFn false st fsFiles).uploadCall =
      some (prod.id, imgs) ∧
    imgs.length = st.queuedFiles.length ∧
    (∀ i (hi : i < st.queuedFiles.length) (hi' : i < imgs.length),
      cropImageToSquare normalizeFn readFileFn (st.queuedFiles.get ⟨i, hi⟩) =
        some (imgs.get ⟨i, hi'⟩)) ∧
    (finalize normalizeFn readFileFn false st fsFiles).state.currentProduct
      = none ∧
    (finalize normalizeFn readFileFn false st fsFiles).state.queuedFiles
      = [] := by
  have hne := queue_isEmpty_false hq
  refine ⟨?_, ?_, cropAll_length normalizeFn readFileFn hcrop,
    cropAll_get normalizeFn readFileFn hcrop, ?_, ?_⟩ <;>
    simp [finalize, hsel, hne, hcrop]

/-- Witness for the successful-finalize claim: two queued files uploaded
in order for product 42, then selection none and queue empty. -/
theorem finalize_success_uploads_in_order_witness :
    (⟨some ⟨"42", "Red Hat", none, none⟩,
        ["/srv/watch/a.jpg", "/srv/watch/b.jpg"]⟩ :
        ServerState).currentProduct = some ⟨"42", "Red Hat", none, none⟩ ∧
    (⟨some ⟨"42", "Red Hat", none, none⟩,
        ["/srv/watch/a.jpg", "/srv/watch/b.jpg"]⟩ :
        ServerState).queuedFiles ≠ [] ∧
    cropAll (fun _ => some [7]) (fun _ => none)
        ["/srv/watch/a.jpg", "/srv/watch/b.jpg"] =
      some [⟨"a-square.jpg", [7]⟩, ⟨"b-square.jpg", [7]⟩] ∧
    ((finalize (fun _ => some [7]) (fun _ => none) false
        ⟨some ⟨"42", "Red Hat", none, none⟩,
          ["/srv/watch/a.jpg", "/srv/watch/b.jpg"]⟩ []).result = .ok ∧
     (finalize (fun _ => some [7]) (fun _ => none) false
        ⟨some ⟨"42", "Red Hat", none, none⟩,
          ["/srv/watch/a.jpg", "/srv/watch/b.jpg"]⟩ []).uploadCall =
       some ("42", [⟨"a-square.jpg", [7]⟩, ⟨"b-square.jpg", [7]⟩]) ∧
     ([⟨"a-square.jpg", [7]⟩, ⟨"b-square.jpg", [7]⟩] : List Image).length =
       (["/srv/watch/a.jpg", "/srv/watch/b.jpg"] : List String).length ∧
     (∀ i (hi : i < (["/srv/watch/a.jpg", "/srv/watch/b.jpg"] :
          List String).length)
        (hi' : i < ([⟨"a-square.jpg", [7]⟩, ⟨"b-square.jpg", [7]⟩] :
          List Image).length),
        cropImageToSquare (fun _ => some [7]) (fun _ => none)
            ((["/srv/watch/a.jpg", "/srv/watch/b.jpg"] :
              List String).get ⟨i, hi⟩) =
          some (([⟨"a-square.jpg", [7]⟩, ⟨"b-square.jpg", [7]⟩] :
            List Image).get ⟨i, hi'⟩)) ∧
     (finalize (fun _ => some [7]) (fun _ => none) false
        ⟨some ⟨"42", "Red Hat", none, none⟩,
          ["/srv/watch/a.jpg", "/srv/watch/b.jpg"]⟩
        []).state.currentProduct = none ∧
     (finalize (fun _ => some [7]) (fun _ => none) false
        ⟨some ⟨"42", "Red Hat", none, none⟩,
          ["/srv/watch/a.jpg", "/srv/watch/b.jpg"]⟩
        []).state.queuedFiles = []) :=
  ⟨rfl, by decide, by decide,
   finalize_success_uploads_in_order (fun _ => some [7]) (fun _ => none)
     ⟨some ⟨"42", "Red Hat", none, none⟩,
       ["/srv/watch/a.jpg", "/srv/watch/b.jpg"]⟩ []
     ⟨"42", "Red Hat", none, none⟩
     [⟨"a-square.jpg", [7]⟩, ⟨"b-square.jpg", [7]⟩]
     rfl (by decide) (by decide)⟩

/-- C8: if the sharp pipeline rejects for the i-th queued file but its raw
bytes are readable (and every crop-with-fallback of the batch resolves),
finalize still calls `uploadImagesToProduct` with one image per queued
file, and the i-th image carries the raw original bytes under the
original basename; the batch is not aborted. -/
theorem finalize_normalizer_fallback
    (normalizeFn readFileFn : String → Option (List Nat))
    (st : ServerState) (fsFiles : List String)
    (prod : Product) (imgs : List Image) (i : Nat) (b : List Nat)
    (hsel : st.currentProduct = some prod)
    (hcrop : cropAll normalizeFn readFileFn st.queuedFiles = some imgs)
    (hi : i < st.queuedFiles.length)
    (hnf : normalizeFn (st.queuedFiles.get ⟨i, hi⟩) = none)
    (hrf : readFileFn (st.queuedFiles.get ⟨i, hi⟩) = some b) :
    (finalize normalizeFn readFileFn false st fsFiles).result = .ok ∧
    (finalize normalizeFn readFileFn false st fsFiles).uploadCall =
      some (prod.id, imgs) ∧
    imgs.length = st.queuedFiles.length ∧
    ∀ hi' : i < imgs.length,
      imgs.get ⟨i, hi'⟩ =
        ⟨pathBasename (st.queuedFiles.get ⟨i, hi⟩), b⟩ := by
  have hq : st.queuedFiles ≠ [] := by
    intro hnil
    rw [hnil] at hi
    exact absurd hi (by simp)
  have hne := queue_isEmpty_false hq
  refine ⟨?_, ?_, cropAll_length normalizeFn readFileFn hcrop, ?_⟩
  · simp [finalize, hsel, hne, hcrop]
  · simp [finalize, hsel, hne, hcrop]
  · intro hi'
    have hget := cropAll_get normalizeFn readFileFn hcrop i hi hi'
    rw [cropImageToSquare, hnf, hrf] at hget
    exact (Option.some.injEq _ _ ▸ hget.symm)

/-- Witness for the normalizer-fallback claim: the sharp pipeline fails
for `b.jpg` (second of two queued files), whose raw bytes `[9]` are then
uploaded under its original basename. -/
theorem finalize_normalizer_fallback_witness :
    (⟨some ⟨"42", "Red Hat", none, none⟩,
        ["/srv/watch/a.jpg", "/srv/watch/b.jpg"]⟩ :
        ServerState).currentProduct = some ⟨"42", "Red Hat", none, none⟩ ∧
    cropAll (fun f => if f = "/srv/watch/b.jpg" then none else some [7])
        (fun _ => some [9]) ["/srv/watch/a.jpg", "/srv/watch/b.jpg"] =
      some [⟨"a-square.jpg", [7]⟩, ⟨"b.jpg", [9]⟩] ∧
    (fun f => if f = "/srv/watch/b.jpg" then none else some [7])
        ((["/srv/watch/a.jpg", "/srv/watch/b.jpg"] : List String).get
          ⟨1, by decide⟩) = none ∧
    (fun _ => some [9])
        ((["/srv/watch/a.jpg", "/srv/watch/b.jpg"] : List String).get
          ⟨1, by decide⟩) = some [9] ∧
    ((finalize (fun f => if f = "/srv/watch/b.jpg" then none else some [7])
        (fun _ => some [9]) false
        ⟨some ⟨"42", "Red Hat", none, none⟩,
          ["/srv/watch/a.jpg", "/srv/watch/b.jpg"]⟩ []).result = .ok ∧
     (finalize (fun f => if f = "/srv/watch/b.jpg" then none else some [7])
        (fun _ => some [9]) false
        ⟨some ⟨"42", "Red Hat", none, none⟩,
          ["/srv/watch/a.jpg", "/srv/watch/b.jpg"]⟩ []).uploadCall =
       some ("42", [⟨"a-square.jpg", [7]⟩, ⟨"b.jpg", [9]⟩]) ∧
     ([⟨"a-square.jpg", [7]⟩, ⟨"b.jpg", [9]⟩] : List Image).length =
       (["/srv/watch/a.jpg", "/srv/watch/b.jpg"] : List String).length ∧
     ∀ hi' : 1 < ([⟨"a-square.jpg", [7]⟩, ⟨"b.jpg", [9]⟩] :
         List Image).length,
       ([⟨"a-square.jpg", [7]⟩, ⟨"b.jpg", [9]⟩] : List Image).get
           ⟨1, hi'⟩ =
         ⟨pathBasename ((["/srv/watch/a.jpg", "/srv/watch/b.jpg"] :
             List String).get ⟨1, by decide⟩), [9]⟩) :=
  ⟨rfl, by decide, by decide, by decide,
   finalize_normalizer_fallback
     (fun f => if f = "/srv/watch/b.jpg" then none else some [7])
     (fun _ => some [9])
     ⟨some ⟨"42", "Red Hat", none, none⟩,
       ["/srv/watch/a.jpg", "/srv/watch/b.jpg"]⟩ []
     ⟨"42", "Red Hat", none, none⟩
     [⟨"a-square.jpg", [7]⟩, ⟨"b.jpg", [9]⟩] 1 [9]
     rfl (by decide) (by decide) (by decide) (by decide)⟩

/-- C9: `/api/select-product` rejects a missing or empty id leaving the
state untouched; any non-empty id replaces the selection unconditionally
and resets the queue to empty, regardless of prior queue contents. -/
theorem selectProduct_resets_queue
    (id title sku created_at : Option String) (st : ServerState) :
    ((id = none ∨ id = some "") →
      selectProduct id title sku created_at st =
        (.badRequest "Missing product id", st)) ∧
    (∀ i, id = some i → i ≠ "" →
      (selectProduct id title sku created_at st).1 = .ok ∧
      (selectProduct id title sku created_at st).2.queuedFiles = [] ∧
      ∃ pr, (selectProduct id title sku created_at st).2.currentProduct =
        some pr ∧ pr.id = i) := by
  constructor
  · rintro (rfl | rfl) <;> simp [selectProduct]
  · rintro i rfl hne
    simp only [selectProduct]
    rw [if_neg hne]
    exact ⟨rfl, rfl, ⟨_, rfl, rfl⟩⟩

/-- Witness for the select claim: selecting product 42 over a state that
already has a queued file yields ok, an empty queue and selection 42. -/
theorem selectProduct_resets_queue_witness :
    (selectProduct (some "42") (some "Red Hat") none none
      ⟨none, ["/srv/watch/x.jpg"]⟩).1 = .ok ∧
    (selectProduct (some "42") (some "Red Hat") none none
      ⟨none, ["/srv/watch/x.jpg"]⟩).2.queuedFiles = [] ∧
    ∃ pr, (selectProduct (some "42") (some "Red Hat") none none
      ⟨none, ["/srv/watch/x.jpg"]⟩).2.currentProduct = some pr ∧
      pr.id = "42" :=
  (selectProduct_resets_queue (some "42") (some "Red Hat") none none
    ⟨none, ["/srv/watch/x.jpg"]⟩).2 "42" rfl (by decide)

/-- C3: contrary to the spec, `/api/remove-photo` performs no containment
check: `relPath = "../../etc/passwd"` resolves outside the watched root
`/srv/watch`, yet the handler answers ok and unlinks `/etc/passwd`. -/
theorem removePhoto_traversal_deletes_outside_root :
    strStartsWith (pathResolve "/srv/watch" "../../etc/passwd")
      (pathNormalize "/srv/watch") = false ∧
    (removePhoto "/srv/watch" (some "../../etc/passwd")
      ["/srv/watch/a.jpg"] ["/etc/passwd", "/srv/watch/a.jpg"]).result =
      .ok 1 ∧
    (removePhoto "/srv/watch" (some "../../etc/passwd")
      ["/srv/watch/a.jpg"] ["/etc/passwd", "/srv/watch/a.jpg"]).fsFiles =
      ["/srv/watch/a.jpg"] ∧
    (removePhoto "/srv/watch" (some "../../etc/passwd")
      ["/srv/watch/a.jpg"] ["/etc/passwd", "/srv/watch/a.jpg"]).queuedFiles =
      ["/srv/watch/a.jpg"] := by decide

/-- C7 counterexample: removing `b.jpg`, which resolves inside the root
but matches no queue entry, answers ok (there is no distinct not-found
reply in the handler), leaving the queue unchanged. -/
theorem removePhoto_missing_entry_answers_ok :
    strStartsWith (pathResolve "/srv/watch" "b.jpg")
      (pathNormalize "/srv/watch") = true ∧
    (removePhoto "/srv/watch" (some "b.jpg")
      ["/srv/watch/a.jpg"] []).result = .ok 1 ∧
    (removePhoto "/srv/watch" (some "b.jpg")
      ["/srv/watch/a.jpg"] []).queuedFiles = ["/srv/watch/a.jpg"] := by
  decide

/-- C7 (amended): `/api/remove-photo` on an in-root path matching no
queue entry reports plain success with the unchanged queue length — not
a not-found error — and does not alter the queue. -/
theorem removePhoto_noMatch_keeps_queue
    (watchDir rel : String) (queue fsFiles : List String)
    (hrel : rel ≠ "")
    (_hin : strStartsWith (pathResolve watchDir rel)
      (pathNormalize watchDir) = true)
    (hnm : ∀ p ∈ queue,
      pathNormalize p ≠ pathNormalize (pathResolve watchDir rel)) :
    (removePhoto watchDir (some rel) queue fsFiles).result =
      .ok queue.length ∧
    (removePhoto watchDir (some rel) queue fsFiles).queuedFiles = queue := by
  have hfilter : queue.filter
      (fun p =>
        pathNormalize p != pathNormalize (pathResolve watchDir rel)) =
      queue := by
    apply List.filter_eq_self.mpr
    intro a ha
    exact bne_iff_ne.mpr (hnm a ha)
  simp [removePhoto, hrel, hfilter]

/-- Witness for the amended remove claim at a concrete state. -/
theorem removePhoto_noMatch_keeps_queue_witness :
    ("b.jpg" : String) ≠ "" ∧
    strStartsWith (pathResolve "/srv/watch" "b.jpg")
      (pathNormalize "/srv/watch") = true ∧
    (∀ p ∈ (["/srv/watch/a.jpg"] : List String),
      pathNormalize p ≠ pathNormalize (pathResolve "/srv/watch" "b.jpg")) ∧
    ((removePhoto "/srv/watch" (some "b.jpg") ["/srv/watch/a.jpg"]
        ["/srv/watch/b.jpg"]).result =
      .ok (["/srv/watch/a.jpg"] : List String).length ∧
     (removePhoto "/srv/watch" (some "b.jpg") ["/srv/watch/a.jpg"]
        ["/srv/watch/b.jpg"]).queuedFiles = ["/srv/watch/a.jpg"]) :=
  ⟨by decide, by decide, by decide,
   removePhoto_noMatch_keeps_queue "/srv/watch" "b.jpg"
     ["/srv/watch/a.jpg"] ["/srv/watch/b.jpg"]
     (by decide) (by decide) (by decide)⟩

/-- C4 counterexample: two `add` events for the same path with an active
selection leave the queue with the path twice — length 2, not 1 — so the
no-duplicates invariant fails on the code. -/
theorem onFileAppeared_duplicate_counterexample :
    (onFileAppeared "/srv/watch/a.jpg" (onFileAppeared "/srv/watch/a.jpg"
      ⟨some ⟨"42", "Red Hat", none, none⟩, []⟩)).queuedFiles =
      ["/srv/watch/a.jpg", "/srv/watch/a.jpg"] ∧
    (onFileAppeared "/srv/watch/a.jpg" (onFileAppeared "/srv/watch/a.jpg"
      ⟨some ⟨"42", "Red Hat", none, none⟩, []⟩)).queuedFiles.length ≠ 1 ∧
    ¬ (onFileAppeared "/srv/watch/a.jpg" (onFileAppeared "/srv/watch/a.jpg"
      ⟨some ⟨"42", "Red Hat", none, none⟩, []⟩)).queuedFiles.Nodup := by
  decide

/-- C4 (amended): the watcher handler does not de-duplicate — with an
active selection and an allowed extension, delivering the same path twice
appends it twice, so reachable queues may contain duplicates. -/
theorem onFileAppeared_appends_without_dedup
    (st : ServerState) (prod : Product) (p : String)
    (hsel : st.currentProduct = some prod)
    (hext : allowedExts.contains (strToLower (pathExtname p)) = true) :
    onFileAppeared p (onFileAppeared p st) =
      { st with queuedFiles := st.queuedFiles ++ [p, p] } := by
  have hmem : strToLower (pathExtname p) ∈ allowedExts := by
    simpa using hext
  have h1 : onFileAppeared p st =
      { st with queuedFiles := st.queuedFiles ++ [p] } := by
    simp [onFileAppeared, hsel, hmem]
  rw [h1]
  simp [onFileAppeared, hsel, hmem, List.append_assoc]

/-! ### Reorder lemmas -/

theorem bool_eq_of_iff {a b : Bool} (h : (a = true) ↔ (b = true)) : a = b :=
  Bool.eq_iff_iff.mpr h

theorem find?_pred_eq {w rel : String} {queue : List String} {p : String}
    (hg : queue.find? (fun q => pathNormalize q == resolveNorm w rel) =
      some p) :
    pathNormalize p = resolveNorm w rel := by
  have h := List.find?_some hg
  simpa using h

theorem find?_norm_self :
    ∀ {queue : List String}, (queue.map pathNormalize).Nodup →
      ∀ {p : String}, p ∈ queue →
      queue.find? (fun q => pathNormalize q == pathNormalize p) = some p := by
  intro queue
  induction queue with
  | nil => intro _ p hp; cases hp
  | cons h t ih =>
    intro hb p hp
    rw [List.map_cons] at hb
    obtain ⟨hnm, hnd⟩ := List.nodup_cons.mp hb
    rcases List.mem_cons.mp hp with rfl | hpt
    · exact List.find?_cons_of_pos _ (by simp)
    · have hne : pathNormalize h ≠ pathNormalize p := fun he =>
        hnm (he ▸ List.mem_map_of_mem pathNormalize hpt)
      rw [List.find?_cons_of_neg _ (by simpa using hne)]
      exact ih hnd hpt

theorem filterMap_nodup_of_key {α β γ : Type _} (g : α → Option β)
    (T : α → γ) (key : β → γ)
    (hkey : ∀ a b, g a = some b → key b = T a) :
    ∀ {l : List α}, (l.map T).Nodup → (l.filterMap g).Nodup := by
  intro l
  induction l with
  | nil => intro _; simp
  | cons a t ih =>
    intro ha
    rw [List.map_cons] at ha
    obtain ⟨hhead, htail⟩ := List.nodup_cons.mp ha
    rw [List.filterMap_cons]
    cases hg : g a with
    | none => exact ih htail
    | some b =>
      refine List.nodup_cons.mpr ⟨?_, ih htail⟩
      intro hbmem
      obtain ⟨a', ha', hg'⟩ := List.mem_filterMap.mp hbmem
      apply hhead
      have e1 := hkey a b hg
      have e2 := hkey a' b hg'
      rw [← e1, e2]
      exact List.mem_map_of_mem T ha'

theorem reorderMatched_nodup (w : String) (order queue : List String)
    (ha : (order.map (fun rel => resolveNorm w rel)).Nodup) :
    (reorderMatched w order queue).Nodup :=
  filterMap_nodup_of_key _ (fun rel => resolveNorm w rel) pathNormalize
    (fun _ _ hg => find?_pred_eq hg) ha

theorem reorderMatched_subset (w : String) (order queue : List String) :
    ∀ x ∈ reorderMatched w order queue, x ∈ queue := by
  intro x hx
  obtain ⟨rel, _, hg⟩ := List.mem_filterMap.mp hx
  exact List.mem_of_find?_eq_some hg

theorem mem_reorderMatched_iff (w : String) {queue : List String}
    (hb : (queue.map pathNormalize).Nodup) {order : List String}
    {p : String} (hp : p ∈ queue) :
    p ∈ reorderMatched w order queue ↔
      ∃ rel ∈ order, resolveNorm w rel = pathNormalize p := by
  constructor
  · intro hm
    obtain ⟨rel, hrel, hg⟩ := List.mem_filterMap.mp hm
    exact ⟨rel, hrel, (find?_pred_eq hg).symm⟩
  · rintro ⟨rel, hrel, htarget⟩
    apply List.mem_filterMap.mpr
    refine ⟨rel, hrel, ?_⟩
    rw [htarget]
    exact find?_norm_self hb hp

theorem forall₂_filter_filterMap {α β : Type _} (g : α → Option β) :
    ∀ l : List α,
      List.Forall₂ (fun a b => g a = some b)
        (l.filter (fun a => (g a).isSome)) (l.filterMap g) := by
  intro l
  induction l with
  | nil => exact List.Forall₂.nil
  | cons a t ih =>
    rw [List.filter_cons, List.filterMap_cons]
    cases hg : g a with
    | none => simpa [hg] using ih
    | some b =>
      simp only [hg, Option.isSome_some, if_pos]
      exact List.forall₂_cons.mpr ⟨hg, ih⟩

theorem reorderPhotos_eq_append (w : String) (order queue : List String)
    (ha : (order.map (fun rel => resolveNorm w rel)).Nodup)
    (hqnd : queue.Nodup)
    (hmne : reorderMatched w order queue ≠ []) :
    reorderPhotos w (some order) queue =
      (.ok, reorderMatched w order queue ++
        queue.filter
          (fun p => !((reorderMatched w order queue).contains p))) := by
  have hempty : (reorderMatched w order queue).isEmpty = false := by
    cases h : reorderMatched w order queue with
    | nil => exact absurd h hmne
    | cons a l => rfl
  by_cases hlen : (reorderMatched w order queue).length = queue.length
  · have hmnd := reorderMatched_nodup w order queue ha
    have hsub := reorderMatched_subset w order queue
    have hall : ∀ x ∈ queue, x ∈ reorderMatched w order queue := by
      have hsubF : (reorderMatched w order queue).toFinset ⊆
          queue.toFinset := by
        intro x hx
        exact List.mem_toFinset.mpr (hsub x (List.mem_toFinset.mp hx))
      have hcard : queue.toFinset.card ≤
          (reorderMatched w order queue).toFinset.card := by
        rw [List.toFinset_card_of_nodup hmnd,
          List.toFinset_card_of_nodup hqnd, hlen]
      have heq := Finset.eq_of_subset_of_card_le hsubF hcard
      intro x hx
      exact List.mem_toFinset.mp (heq ▸ List.mem_toFinset.mpr hx)
    have hfilter : queue.filter
        (fun p => !((reorderMatched w order queue).contains p)) = [] := by
      apply List.filter_eq_nil_iff.mpr
      intro a haq
      simp [hall a haq]
    have hbeq : ((reorderMatched w order queue).length != queue.length) =
        false := by simp [hlen]
    simp only [reorderPhotos, hempty, hbeq, hfilter, Bool.false_eq_true,
      if_false, List.append_nil]
  · have hbne : ((reorderMatched w order queue).length != queue.length) =
        true := bne_iff_ne.mpr hlen
    simp [reorderPhotos, hempty, hbne]

/-- Witness for the amended watcher claim at a concrete state. -/
theorem onFileAppeared_appends_without_dedup_witness :
    allowedExts.contains (strToLower (pathExtname "/srv/watch/a.jpg")) =
      true ∧
    onFileAppeared "/srv/watch/a.jpg" (onFileAppeared "/srv/watch/a.jpg"
      ⟨some ⟨"7", "Cap", none, none⟩, []⟩) =
      ⟨some ⟨"7", "Cap", none, none⟩,
        ["/srv/watch/a.jpg", "/srv/watch/a.jpg"]⟩ :=
  ⟨by decide, by
    have h := onFileAppeared_appends_without_dedup
      ⟨some ⟨"7", "Cap", none, none⟩, []⟩ ⟨"7", "Cap", none, none⟩
      "/srv/watch/a.jpg" rfl (by decide)
    simpa using h⟩

/-- C5 counterexample: the reorder input `["a.jpg", "a.jpg"]` (duplicate
entries) on queue `[a, b]` matches `a` twice, so `newQueued` already has
the full queue length and `b` — unmentioned — is dropped instead of being
appended. -/
theorem reorder_duplicate_input_counterexample :
    reorderPhotos "/w" (some ["a.jpg", "a.jpg"]) ["/w/a.jpg", "/w/b.jpg"] =
      (.ok, ["/w/a.jpg", "/w/a.jpg"]) ∧
    "/w/b.jpg" ∉
      (reorderPhotos "/w" (some ["a.jpg", "a.jpg"])
        ["/w/a.jpg", "/w/b.jpg"]).2 := by decide

/-- C5 (amended): when the reorder input resolves to pairwise-distinct
normalized paths and the queue entries have pairwise-distinct normalized
paths, a reorder with at least one match succeeds, placing the queue
entry of each matching input in the input's order and appending the
unmentioned queue entries afterwards in their original relative order. -/
theorem reorder_places_matches_then_leftovers
    (w : String) (order queue : List String)
    (ha : (order.map (fun rel => resolveNorm w rel)).Nodup)
    (hb : (queue.map pathNormalize).Nodup)
    (hc : ∃ rel ∈ order, ∃ p ∈ queue,
      pathNormalize p = resolveNorm w rel) :
    ∃ matched,
      reorderPhotos w (some order) queue =
        (.ok, matched ++ queue.filter
          (fun p => !(order.any
            (fun rel => resolveNorm w rel == pathNormalize p)))) ∧
      List.Forall₂
        (fun rel p => p ∈ queue ∧ pathNormalize p = resolveNorm w rel)
        (order.filter
          (fun rel => queue.any
            (fun p => pathNormalize p == resolveNorm w rel)))
        matched := by
  have hqnd := List.Nodup.of_map pathNormalize hb
  have hmne : reorderMatched w order queue ≠ [] := by
    obtain ⟨rel, hrel, p, hp, hnorm⟩ := hc
    intro h0
    have h1 := List.filterMap_eq_nil_iff.mp h0 rel hrel
    have h2 := List.find?_eq_none.mp h1 p hp
    exact h2 (by simpa using hnorm)
  refine ⟨reorderMatched w order queue, ?_, ?_⟩
  · rw [reorderPhotos_eq_append w order queue ha hqnd hmne]
    have hfeq : queue.filter
        (fun p => !((reorderMatched w order queue).contains p)) =
        queue.filter (fun p => !(order.any
          (fun rel => resolveNorm w rel == pathNormalize p))) := by
      apply List.filter_congr
      intro p hp
      have hcm : ((reorderMatched w order queue).contains p = true) ↔
          (order.any
            (fun rel => resolveNorm w rel == pathNormalize p) = true) := by
        rw [List.any_eq_true]
        constructor
        · intro hcp
          have hm : p ∈ reorderMatched w order queue := by simpa using hcp
          obtain ⟨rel, hrel, htg⟩ := (mem_reorderMatched_iff w hb hp).mp hm
          exact ⟨rel, hrel, by simpa using htg⟩
        · rintro ⟨rel, hrel, hbq⟩
          have hm := (mem_reorderMatched_iff w hb hp).mpr
            ⟨rel, hrel, by simpa using hbq⟩
          simpa using hm
      rw [bool_eq_of_iff hcm]
    rw [hfeq]
  · have h2 := forall₂_filter_filterMap
      (fun rel => queue.find?
        (fun p => pathNormalize p == resolveNorm w rel)) order
    have hfe : order.filter
        (fun rel => (queue.find?
          (fun p => pathNormalize p == resolveNorm w rel)).isSome) =
        order.filter (fun rel => queue.any
          (fun p => pathNormalize p == resolveNorm w rel)) := by
      apply List.filter_congr
      intro rel _
      apply bool_eq_of_iff
      rw [List.find?_isSome, List.any_eq_true]
    rw [hfe] at h2
    refine List.Forall₂.imp ?_ h2
    intro rel p hg
    exact ⟨List.mem_of_find?_eq_some hg, find?_pred_eq hg⟩

/-- Witness for the amended reorder claim: `reorder(["b","a"])` on queue
`[a, b, c]` yields `[b, a, c]`. -/
theorem reorder_places_matches_then_leftovers_witness :
    reorderPhotos "/w" (some ["b.jpg", "a.jpg"])
      ["/w/a.jpg", "/w/b.jpg", "/w/c.jpg"] =
      (.ok, ["/w/b.jpg", "/w/a.jpg", "/w/c.jpg"]) ∧
    ((["b.jpg", "a.jpg"] : List String).map
      (fun rel => resolveNorm "/w" rel)).Nodup ∧
    ((["/w/a.jpg", "/w/b.jpg", "/w/c.jpg"] : List String).map
      pathNormalize).Nodup ∧
    (∃ rel ∈ (["b.jpg", "a.jpg"] : List String),
      ∃ p ∈ (["/w/a.jpg", "/w/b.jpg", "/w/c.jpg"] : List String),
        pathNormalize p = resolveNorm "/w" rel) ∧
    (∃ matched,
      reorderPhotos "/w" (some ["b.jpg", "a.jpg"])
        ["/w/a.jpg", "/w/b.jpg", "/w/c.jpg"] =
        (.ok, matched ++
          (["/w/a.jpg", "/w/b.jpg", "/w/c.jpg"] : List String).filter
            (fun p => !((["b.jpg", "a.jpg"] : List String).any
              (fun rel => resolveNorm "/w" rel == pathNormalize p)))) ∧
      List.Forall₂
        (fun rel p =>
          p ∈ (["/w/a.jpg", "/w/b.jpg", "/w/c.jpg"] : List String) ∧
          pathNormalize p = resolveNorm "/w" rel)
        ((["b.jpg", "a.jpg"] : List String).filter
          (fun rel =>
            (["/w/a.jpg", "/w/b.jpg", "/w/c.jpg"] : List String).any
              (fun p => pathNormalize p == resolveNorm "/w" rel)))
        matched) :=
  ⟨by decide, by decide, by decide, by decide,
   reorder_places_matches_then_leftovers "/w" ["b.jpg", "a.jpg"]
     ["/w/a.jpg", "/w/b.jpg", "/w/c.jpg"]
     (by decide) (by decide) (by decide)⟩

/-- C6: a reorder whose supplied paths match zero queue entries (the
empty list included) is rejected with the invalid-request error and the
queue is left unchanged. -/
theorem reorder_no_match_is_rejected
    (w : String) (order queue : List String)
    (_hq : queue ≠ [])
    (hnm : ∀ rel ∈ order, ∀ p ∈ queue,
      pathNormalize p ≠ resolveNorm w rel) :
    reorderPhotos w (some order) queue =
      (.badRequest "Reorder did not match current queue", queue) := by
  have hm : reorderMatched w order queue = [] := by
    apply List.filterMap_eq_nil_iff.mpr
    intro rel hrel
    apply List.find?_eq_none.mpr
    intro p hp
    simpa using hnm rel hrel p hp
  simp [reorderPhotos, hm]

/-- Witness for the no-match reorder claim: a single nonexistent path
against a one-entry queue. -/
theorem reorder_no_match_is_rejected_witness :
    (["/srv/watch/a.jpg"] : List String) ≠ [] ∧
    (∀ rel ∈ (["nonexistent.jpg"] : List String),
      ∀ p ∈ (["/srv/watch/a.jpg"] : List String),
        pathNormalize p ≠ resolveNorm "/srv/watch" rel) ∧
    reorderPhotos "/srv/watch" (some ["nonexistent.jpg"])
      ["/srv/watch/a.jpg"] =
      (.badRequest "Reorder did not match current queue",
        ["/srv/watch/a.jpg"]) :=
  ⟨by decide, by decide,
   reorder_no_match_is_rejected "/srv/watch" ["nonexistent.jpg"]
     ["/srv/watch/a.jpg"] (by decide) (by decide)⟩

/-- C10 counterexample: on a queue holding the same path twice (reachable,
since the watcher does not de-duplicate), the distinct single-entry input
`["a.jpg"]` succeeds but collapses the queue from two entries to one —
not a permutation. -/
theorem reorder_duplicate_queue_counterexample :
    ((["a.jpg"] : List String).map
      (fun rel => resolveNorm "/w" rel)).Nodup ∧
    (reorderPhotos "/w" (some ["a.jpg"]) ["/w/a.jpg", "/w/a.jpg"]).1 =
      .ok ∧
    (reorderPhotos "/w" (some ["a.jpg"]) ["/w/a.jpg", "/w/a.jpg"]).2 =
      ["/w/a.jpg"] ∧
    ¬ ((reorderPhotos "/w" (some ["a.jpg"])
        ["/w/a.jpg", "/w/a.jpg"]).2.Perm ["/w/a.jpg", "/w/a.jpg"]) := by
  refine ⟨by decide, by decide, by decide, ?_⟩
  intro hperm
  have h2 : (reorderPhotos "/w" (some ["a.jpg"])
      ["/w/a.jpg", "/w/a.jpg"]).2 = ["/w/a.jpg"] := by decide
  rw [h2] at hperm
  exact absurd hperm.length_eq (by decide)

/-- C10 (amended): when the reorder input resolves to pairwise-distinct
normalized paths and the queue entries are pairwise distinct, a reorder
that succeeds returns a permutation of the prior queue: same entries,
same length, nothing dropped and nothing duplicated. -/
theorem reorder_success_is_permutation
    (w : String) (order queue : List String)
    (ha : (order.map (fun rel => resolveNorm w rel)).Nodup)
    (hqnd : queue.Nodup)
    (hok : (reorderPhotos w (some order) queue).1 = .ok) :
    ((reorderPhotos w (some order) queue).2).Perm queue := by
  have hmne : reorderMatched w order queue ≠ [] := by
    intro h0
    rw [reorderPhotos] at hok
    simp only [h0, List.isEmpty_nil, if_true] at hok
    cases hok
  have hres := reorderPhotos_eq_append w order queue ha hqnd hmne
  rw [hres]
  have hmnd := reorderMatched_nodup w order queue ha
  have hsub := reorderMatched_subset w order queue
  have hfnd : (queue.filter
      (fun p => !((reorderMatched w order queue).contains p))).Nodup :=
    hqnd.filter _
  have hdisj : (reorderMatched w order queue).Disjoint
      (queue.filter
        (fun p => !((reorderMatched w order queue).contains p))) := by
    intro a ham haf
    have hpred := (List.mem_filter.mp haf).2
    have hc : (reorderMatched w order queue).contains a = true := by
      simpa using ham
    rw [hc] at hpred
    cases hpred
  have hnd := List.Nodup.append hmnd hfnd hdisj
  apply List.perm_of_nodup_nodup_toFinset_eq hnd hqnd
  apply Finset.ext
  intro x
  simp only [List.mem_toFinset, List.mem_append, List.mem_filter]
  constructor
  · rintro (hx | ⟨hx, _⟩)
    · exact hsub x hx
    · exact hx
  · intro hx
    by_cases hxm : x ∈ reorderMatched w order queue
    · exact Or.inl hxm
    · exact Or.inr ⟨hx, by simpa using hxm⟩

/-- Witness for the amended permutation claim: a partial reorder of a
three-entry queue is a permutation of it. -/
theorem reorder_success_is_permutation_witness :
    ((["c.jpg", "a.jpg"] : List String).map
      (fun rel => resolveNorm "/w" rel)).Nodup ∧
    (["/w/a.jpg", "/w/b.jpg", "/w/c.jpg"] : List String).Nodup ∧
    (reorderPhotos "/w" (some ["c.jpg", "a.jpg"])
      ["/w/a.jpg", "/w/b.jpg", "/w/c.jpg"]).1 = .ok ∧
    ((reorderPhotos "/w" (some ["c.jpg", "a.jpg"])
      ["/w/a.jpg", "/w/b.jpg", "/w/c.jpg"]).2).Perm
      ["/w/a.jpg", "/w/b.jpg", "/w/c.jpg"] :=
  ⟨by decide, by decide, by decide,
   reorder_success_is_permutation "/w" ["c.jpg", "a.jpg"]
     ["/w/a.jpg", "/w/b.jpg", "/w/c.jpg"]
     (by decide) (by decide) (by decide)⟩

end StreetPhoto
